import Mathlib

set_option maxHeartbeats 1000000

/-!
Verification of the Liteflow workflow tracker (src/index.ts) against its
specification.  The relational store (knex over SQLite, the default backend)
is modelled shallowly: each table is a list of rows in insertion order, SQL
`ORDER BY` is a stable sort on the scan order, `WHERE` is `List.filter`,
`UPDATE ... WHERE` is `List.map` guarded by the predicate.  ISO-8601
timestamps produced by `new Date().toISOString()` are modelled as naturals
(lexicographic order on the ISO strings agrees with the order of instants);
uuids from `uuidv4()` are modelled as naturals drawn from a counter, which
preserves exactly what the code relies on: freshness.
-/

namespace Liteflow

/-- An identifier key/value pair attached to a workflow (src/types.ts). -/
structure Identifier where
  key : String
  value : String
deriving DecidableEq

/-- Workflow status: the `status` column, default `pending` (src/index.ts 216). -/
inductive Status where
  | pending
  | completed
  | failed
deriving DecidableEq

/-- A row of the `workflow` table (src/index.ts 212-219).  The `identifiers`
column stores `JSON.stringify` of the identifier list; it is modelled as the
decoded list itself. -/
structure WorkflowRow where
  id : String
  name : String
  identifiers : List Identifier
  status : Status
  started_at : Nat
  ended_at : Option Nat
deriving DecidableEq

/-- A row of the `workflow_step` table (src/index.ts 224-231).  `data` is the
payload text after `JSON.stringify`. -/
structure StepRow where
  id : Nat
  workflow_id : String
  step : String
  data : String
  created_at : Nat
deriving DecidableEq

/-- The relational store: both tables, rows in insertion order. -/
structure DB where
  workflows : List WorkflowRow
  steps : List StepRow
deriving DecidableEq

/-- In-memory state of a `Liteflow` instance (src/index.ts 102-112): the store,
the pending-step buffer and the batch-insert timer.  `batchInsertTimer = some t`
means the one-shot timer whose identity is `t` is armed; `timersCreated` counts
the `setTimeout` calls made so far, so timer identities are unique and we can
observe whether an operation re-armed or duplicated a timer.  `nextStepId`
models the uuid generator for step ids. -/
structure State where
  db : DB
  pendingSteps : List StepRow
  batchInsertTimer : Option Nat
  timersCreated : Nat
  nextStepId : Nat
deriving DecidableEq

/-- The `wrap` boundary (src/index.ts 163-170): run the operation; on a thrown error, log it
and return the designated fallback value.  The possibly-failing store
computation is modelled as an `Except`. -/
def wrap {A : Type} (x : Except String A) (fallback : A) : A :=
  match x with
  | .ok v => v
  | .error _ => fallback

/-- The `scheduleBatchInsert` method (src/index.ts 195-206): arm a one-shot timer only if
none is already armed; an armed timer is left untouched. -/
def scheduleBatchInsert (s : State) : State :=
  match s.batchInsertTimer with
  | some _ => s
  | none =>
      { s with
        batchInsertTimer := some s.timersCreated
        timersCreated := s.timersCreated + 1 }

/-- The `addStep` method (src/index.ts 294-316): capture a timestamp and a fresh id, push
the record onto the pending buffer, then schedule the batch insert. -/
def addStep (s : State) (workflowId step data : String) (now : Nat) : State :=
  scheduleBatchInsert
    { s with
      pendingSteps := s.pendingSteps ++
        [{ id := s.nextStepId
           workflow_id := workflowId
           step := step
           data := data
           created_at := now }]
      nextStepId := s.nextStepId + 1 }

/-- The `flushBatchInserts` method (src/index.ts 175-193): cancel an armed timer, return
immediately if the buffer is empty, otherwise swap the buffer out and insert
the swapped-out records as one multi-row insert.  `insertOk` models whether
that insert succeeds; on failure the records are dropped (the source logs the
error and does not requeue). -/
def flushBatchInserts (s : State) (insertOk : Bool) : State :=
  let s1 :=
    match s.batchInsertTimer with
    | some _ => { s with batchInsertTimer := none }
    | none => s
  if s1.pendingSteps.isEmpty then s1
  else
    let stepsToInsert := s1.pendingSteps
    let s2 := { s1 with pendingSteps := [] }
    if insertOk then
      { s2 with db := { s2.db with steps := s2.db.steps ++ stepsToInsert } }
    else s2

/-- The armed timer's callback (src/index.ts 200-205): it first sets the timer
field to null, then invokes `flushBatchInserts`. -/
def timerFire (s : State) (insertOk : Bool) : State :=
  flushBatchInserts { s with batchInsertTimer := none } insertOk

/-- The rows built by one `addSteps` call (src/index.ts 327-333): fresh ids,
and the single timestamp captured at the start of the call. -/
def addStepsRows (startId : Nat) (workflowId : String) (now : Nat) :
    List (String × String) → List StepRow
  | [] => []
  | (st, d) :: rest =>
      { id := startId
        workflow_id := workflowId
        step := st
        data := d
        created_at := now } :: addStepsRows (startId + 1) workflowId now rest

/-- The `addSteps` method (src/index.ts 322-348): bypasses the buffer and inserts the
whole batch directly, all rows sharing the timestamp captured at the start. -/
def addSteps (s : State) (workflowId : String) (steps : List (String × String))
    (now : Nat) (insertOk : Bool) : State :=
  let rows := addStepsRows s.nextStepId workflowId now steps
  let s1 := { s with nextStepId := s.nextStepId + steps.length }
  if insertOk then
    { s1 with db := { s1.db with steps := s1.db.steps ++ rows } }
  else s1

/-- The `completeWorkflow` method (src/index.ts 350-370): UPDATE workflow SET
status = completed, ended_at = now WHERE id = ?, with no check of the current
status. -/
def completeWorkflow (db : DB) (id : String) (now : Nat) : DB :=
  { db with
    workflows := db.workflows.map (fun w =>
      if w.id == id then
        { w with status := Status.completed, ended_at := some now }
      else w) }

/-- The `failWorkflow` method (src/index.ts 372-392): UPDATE workflow SET status = failed,
ended_at = now WHERE id = ?, with no check of the current status. -/
def failWorkflow (db : DB) (id : String) (now : Nat) : DB :=
  { db with
    workflows := db.workflows.map (fun w =>
      if w.id == id then
        { w with status := Status.failed, ended_at := some now }
      else w) }

/-- SELECT * FROM workflow WHERE id = ? (first match). -/
def getWorkflowById (db : DB) (id : String) : Option WorkflowRow :=
  db.workflows.find? (fun w => w.id == id)

/-- The SQLite `json_each` membership test of src/index.ts 411-417: does the
workflow's identifier list contain an entry with this key and value? -/
def matchesIdentifier (w : WorkflowRow) (key value : String) : Bool :=
  w.identifiers.any (fun i => i.key == key && i.value == value)

/-- The `getWorkflowByIdentifier` method (src/index.ts 394-420, SQLite branch): first
workflow whose identifier list contains the pair. -/
def getWorkflowByIdentifier (db : DB) (key value : String) : Option WorkflowRow :=
  db.workflows.find? (fun w => matchesIdentifier w key value)

/-- The `ORDER BY created_at ASC` comparison used by `getSteps`. -/
def stepLE (a b : StepRow) : Prop := a.created_at ≤ b.created_at

instance : DecidableRel stepLE := fun a b => Nat.decLe a.created_at b.created_at

instance : IsTotal StepRow stepLE := ⟨fun a b => Nat.le_total a.created_at b.created_at⟩

instance : IsTrans StepRow stepLE := ⟨fun _ _ _ h1 h2 => Nat.le_trans h1 h2⟩

/-- The `getSteps` method (src/index.ts 499-506): SELECT * FROM workflow_step WHERE
workflow_id = ? ORDER BY created_at ASC.  The table scan yields insertion
order; ORDER BY is modelled as a stable sort on that order. -/
def getSteps (db : DB) (workflowId : String) : List StepRow :=
  List.insertionSort stepLE (db.steps.filter (fun r => r.workflow_id == workflowId))

/-- The UPDATE of `attachIdentifier` (src/index.ts 552-555): rows matching the
found workflow's id get the found workflow's identifier list with the new
identifier pushed onto the end. -/
def attachUpd (workflow : WorkflowRow) (newIdentifier : Identifier)
    (x : WorkflowRow) : WorkflowRow :=
  if x.id == workflow.id then
    { x with identifiers := workflow.identifiers ++ [newIdentifier] }
  else x

/-- The `attachIdentifier` method (src/index.ts 539-558).  The source's malformed-argument
check `!newIdentifier.key || !newIdentifier.value` rejects JS-falsy keys and
values; on `String`-typed fields its residue is the empty string.  The
duplicate check `currentIdentifiers.find(i => i.key === k && i.value === v)`
is exactly the `matchesIdentifier` membership test on the new pair. -/
def attachIdentifier (db : DB) (existingKey existingValue : String)
    (newIdentifier : Identifier) : Bool × DB :=
  match getWorkflowByIdentifier db existingKey existingValue with
  | none => (false, db)
  | some workflow =>
      if newIdentifier.key == "" || newIdentifier.value == "" then (false, db)
      else if matchesIdentifier workflow newIdentifier.key newIdentifier.value then
        (false, db)
      else
        (true,
          { db with
            workflows := db.workflows.map (attachUpd workflow newIdentifier) })

/-- First-occurrence list of the distinct values in `l` (models the distinct
groups produced by SQL GROUP BY on the scan order). -/
def distinctList (l : List String) : List String :=
  l.foldl (fun acc k => if k ∈ acc then acc else acc ++ [k]) []

/-- Number of stored steps carrying this step name. -/
def stepOccurrences (db : DB) (st : String) : Nat :=
  (db.steps.filter (fun r => r.step == st)).length

/-- SELECT step, COUNT(*) FROM workflow_step GROUP BY step (src/index.ts
591-594): one row per distinct step name with its occurrence count. -/
def stepCounts (db : DB) : List (String × Nat) :=
  (distinctList (db.steps.map (fun r => r.step))).map
    (fun st => (st, stepOccurrences db st))

/-- The `ORDER BY count DESC` comparison of `getMostFrequentSteps`. -/
def countDescRel (a b : String × Nat) : Prop := b.2 ≤ a.2

instance : DecidableRel countDescRel := fun a b => Nat.decLe b.2 a.2

instance : IsTotal (String × Nat) countDescRel := ⟨fun a b => Nat.le_total b.2 a.2⟩

instance : IsTrans (String × Nat) countDescRel := ⟨fun _ _ _ h1 h2 => Nat.le_trans h2 h1⟩

/-- SQLite LIMIT semantics, which knex's `.limit(n)` forwards to: a negative
limit places no upper bound on the number of returned rows; a nonnegative
limit takes that many rows. -/
def sqlLimit {A : Type} (n : Int) (l : List A) : List A :=
  if n < 0 then l else l.take n.toNat

/-- The `getMostFrequentSteps` method (src/index.ts 589-600): group steps by name, order
descending by count, apply the LIMIT. -/
def getMostFrequentSteps (db : DB) (limit : Int) : List (String × Nat) :=
  sqlLimit limit (List.insertionSort countDescRel (stepCounts db))

/-- The result record of `getWorkflowStats` (src/types.ts).  `avgSteps` is a
JS number; the arithmetic performed on it (integer sums, one division, the
two-decimal rounding) is modelled over `Rat`. -/
structure WorkflowStats where
  total : Nat
  completed : Nat
  pending : Nat
  avgSteps : Rat
deriving DecidableEq

/-- SELECT workflow_id, COUNT(*) FROM workflow_step GROUP BY workflow_id
(src/index.ts 571-574): note only workflows that have at least one step
appear. -/
def stepCountsByWorkflow (db : DB) : List (String × Nat) :=
  (distinctList (db.steps.map (fun r => r.workflow_id))).map
    (fun wid => (wid, (db.steps.filter (fun r => r.workflow_id == wid)).length))

/-- JS `Math.round (x * 100) / 100` for the nonnegative averages produced here:
round half up to two decimal places. -/
def round2 (q : Rat) : Rat := ((⌊q * 100 + 1 / 2⌋ : Int) : Rat) / 100

/-- The raw average step count per workflow (src/index.ts 576-578): total of
the per-workflow counts divided by the number of workflows that have steps,
or 0 when no workflow has steps. -/
def avgStepsRaw (db : DB) : Rat :=
  let groups := stepCountsByWorkflow db
  if groups.length > 0 then
    ((groups.map (fun g => (g.2 : Rat))).sum) / (groups.length : Rat)
  else 0

/-- The `getWorkflowStats` method (src/index.ts 560-587). -/
def getWorkflowStats (db : DB) : WorkflowStats :=
  { total := db.workflows.length
    completed := (db.workflows.filter (fun w => w.status == Status.completed)).length
    pending := (db.workflows.filter (fun w => w.status == Status.pending)).length
    avgSteps := round2 (avgStepsRaw db) }

/-- The `orderBy` argument of `getWorkflows`.  Its TS type is the union
`started_at | ended_at`, but JS callers can pass any value; `invalid` stands
for every value outside the union, which knex interpolates as a column name
the store then rejects. -/
inductive OrderColumn where
  | started_at
  | ended_at
  | invalid
deriving DecidableEq

/-- The `order` direction argument. -/
inductive OrderDir where
  | asc
  | desc
deriving DecidableEq

/-- The options object of `getWorkflows` (src/index.ts 422-432); `none` models
an omitted field, given its default by the destructuring at 434-441. -/
structure GetWorkflowsOptions where
  status : Option Status
  page : Option Nat
  pageSize : Option Nat
  orderBy : Option OrderColumn
  order : Option OrderDir
  identifier : Option Identifier
deriving DecidableEq

/-- The result record of `getWorkflows`. -/
structure WorkflowPage where
  workflows : List WorkflowRow
  total : Nat
  page : Nat
  pageSize : Nat
  totalPages : Nat
deriving DecidableEq

/-- The fallback page passed to `wrap` at src/index.ts 496. -/
def fallbackPage : WorkflowPage :=
  { workflows := [], total := 0, page := 1, pageSize := 10, totalPages := 0 }

/-- The WHERE clauses of `getWorkflows` (src/index.ts 449-479, SQLite branch),
applied identically to the count query and the data query. -/
def wfFilter (o : GetWorkflowsOptions) (w : WorkflowRow) : Bool :=
  (match o.status with
   | some st => w.status == st
   | none => true) &&
  (match o.identifier with
   | some i => matchesIdentifier w i.key i.value
   | none => true)

/-- Sort key for a valid order column.  For `ended_at`, SQL NULLs sort before
every value in ascending order; `none` is mapped below every `some`. -/
def wfSortKey (c : OrderColumn) (w : WorkflowRow) : Nat :=
  match c with
  | .ended_at =>
      match w.ended_at with
      | none => 0
      | some t => t + 1
  | _ => w.started_at

/-- Ascending comparison on the sort key. -/
def wfAsc (c : OrderColumn) (a b : WorkflowRow) : Prop := wfSortKey c a ≤ wfSortKey c b

/-- Descending comparison on the sort key. -/
def wfDesc (c : OrderColumn) (a b : WorkflowRow) : Prop := wfSortKey c b ≤ wfSortKey c a

instance (c : OrderColumn) : DecidableRel (wfAsc c) :=
  fun a b => Nat.decLe (wfSortKey c a) (wfSortKey c b)

instance (c : OrderColumn) : DecidableRel (wfDesc c) :=
  fun a b => Nat.decLe (wfSortKey c b) (wfSortKey c a)

/-- JS `Math.ceil (total / pageSize)` over naturals (src/index.ts 494). -/
def ceilDiv (total pageSize : Nat) : Nat := (total + pageSize - 1) / pageSize

/-- The store round-trip of `getWorkflows` (src/index.ts 433-495): filter,
count, order, paginate.  An `invalid` order column makes the data query's SQL
refer to a non-existent column, so the store raises and the whole operation
lands in the `Except.error` branch.  A SQLite OFFSET evaluating negative is
treated as zero, which the truncated subtraction `(page - 1) * pageSize`
reproduces. -/
def runGetWorkflows (db : DB) (o : GetWorkflowsOptions) :
    Except String WorkflowPage :=
  let page := o.page.getD 1
  let pageSize := o.pageSize.getD 10
  let c := o.orderBy.getD OrderColumn.started_at
  let order := o.order.getD OrderDir.desc
  let filtered := db.workflows.filter (wfFilter o)
  let total := filtered.length
  if c = OrderColumn.invalid then Except.error "no such column"
  else
    let sorted :=
      match order with
      | .asc => List.insertionSort (wfAsc c) filtered
      | .desc => List.insertionSort (wfDesc c) filtered
    Except.ok
      { workflows := (sorted.drop ((page - 1) * pageSize)).take pageSize
        total := total
        page := page
        pageSize := pageSize
        totalPages := ceilDiv total pageSize }

/-- The `getWorkflows` method (src/index.ts 422-497): the round-trip behind the uniform
error boundary with its fallback page. -/
def getWorkflows (db : DB) (o : GetWorkflowsOptions) : WorkflowPage :=
  wrap (runGetWorkflows db o) fallbackPage

/-- A lifecycle write: one `completeWorkflow` or `failWorkflow` call, with the
timestamp it captured. -/
inductive LifecycleEvent where
  | complete (id : String) (now : Nat)
  | fail (id : String) (now : Nat)
deriving DecidableEq

/-- Apply one lifecycle write to the store. -/
def applyEvent (db : DB) (e : LifecycleEvent) : DB :=
  match e with
  | .complete id now => completeWorkflow db id now
  | .fail id now => failWorkflow db id now

/-- Apply a sequence of lifecycle writes in order. -/
def applyEvents (db : DB) (es : List LifecycleEvent) : DB :=
  es.foldl applyEvent db

/-- One `addStep` call as seen by the claim about batched ordering: the step
name, the payload text, and the timestamp the call captures. -/
structure AddStepCall where
  step : String
  data : String
  now : Nat
deriving DecidableEq

/-- A sequence of `addStep` calls against one workflow, in call order. -/
def runAddSteps (s : State) (w : String) (calls : List AddStepCall) : State :=
  calls.foldl (fun acc c => addStep acc w c.step c.data c.now) s

/-- The step rows those calls buffer, in call order, with sequential ids. -/
def callRows (startId : Nat) (w : String) : List AddStepCall → List StepRow
  | [] => []
  | c :: rest =>
      { id := startId
        workflow_id := w
        step := c.step
        data := c.data
        created_at := c.now } :: callRows (startId + 1) w rest

/-- The row transformer applied by one lifecycle write. -/
def eventUpd (e : LifecycleEvent) (x : WorkflowRow) : WorkflowRow :=
  match e with
  | .complete id now =>
      if x.id == id then { x with status := Status.completed, ended_at := some now } else x
  | .fail id now =>
      if x.id == id then { x with status := Status.failed, ended_at := some now } else x

/-- Concrete fixture for `c9_flush_empty_buffer_noop`: armed timer, empty
buffer, one stored step. -/
def c9State : State :=
  { db := { workflows := [],
            steps := [{ id := 0, workflow_id := "w", step := "a", data := "d", created_at := 3 }] }
    pendingSteps := []
    batchInsertTimer := some 0
    timersCreated := 1
    nextStepId := 1 }

/-- Concrete fixture for `c8_flush_scheduling_idempotent`: timer 5 armed after
6 timer creations, one buffered step. -/
def c8State : State :=
  { db := { workflows := [], steps := [] }
    pendingSteps := [{ id := 0, workflow_id := "w", step := "a", data := "d", created_at := 1 }]
    batchInsertTimer := some 5
    timersCreated := 6
    nextStepId := 1 }

/-- Concrete fixture for `c5_completeWorkflow_unconditional_witness`: a store
whose only workflow is already failed. -/
def c5DB : DB :=
  { workflows := [{ id := "w", name := "n", identifiers := [], status := Status.failed,
                    started_at := 3, ended_at := some 4 }]
    steps := [] }

/-- Concrete fixture for `c3_getWorkflows_error_fallback_witness`: a non-empty
store. -/
def c3DB : DB :=
  { workflows := [{ id := "w", name := "n", identifiers := [], status := Status.pending,
                    started_at := 0, ended_at := none }]
    steps := [] }

/-- Concrete fixture for `c1_addStep_flush_getSteps_call_order_witness`: the
state of a freshly constructed tracker. -/
def c1State : State :=
  { db := { workflows := [], steps := [] }
    pendingSteps := []
    batchInsertTimer := none
    timersCreated := 0
    nextStepId := 0 }

/-- Three chronological `addStep` calls, the first two sharing a timestamp. -/
def c1Calls : List AddStepCall :=
  [{ step := "a", data := "d1", now := 5 },
   { step := "b", data := "d2", now := 5 },
   { step := "c", data := "d3", now := 7 }]

/-- Concrete fixture for the C4 counterexample: a store holding one step named
`a`. -/
def c4DB : DB :=
  { workflows := []
    steps := [{ id := 0, workflow_id := "w", step := "a", data := "d", created_at := 0 }] }

/-- Concrete fixture for `c6_getWorkflowStats_example`: two workflows, one
completed with 2 steps and one pending with 1 step. -/
def c6DB : DB :=
  { workflows :=
      [{ id := "w1", name := "n1", identifiers := [], status := Status.completed,
         started_at := 0, ended_at := some 5 },
       { id := "w2", name := "n2", identifiers := [], status := Status.pending,
         started_at := 1, ended_at := none }]
    steps :=
      [{ id := 0, workflow_id := "w1", step := "a", data := "d", created_at := 1 },
       { id := 1, workflow_id := "w1", step := "b", data := "d", created_at := 2 },
       { id := 2, workflow_id := "w2", step := "a", data := "d", created_at := 3 }] }

/-- The single workflow row of `c7DB`. -/
def c7Row : WorkflowRow :=
  { id := "w1", name := "n", identifiers := [{ key := "a", value := "1" }],
    status := Status.pending, started_at := 0, ended_at := none }

/-- Concrete fixture for `c7_attachIdentifier_spec_witness`: one workflow
carrying the identifier pair (a, 1). -/
def c7DB : DB :=
  { workflows := [c7Row]
    steps := [] }

/-! ### Helper lemmas -/

/-- Lookup `find?` commutes with mapping a function that does not change the value of
the search predicate (needed because SQL UPDATE maps a row transformer over
the table while lookups test columns the transformer preserves). -/
theorem find?_map_of_pred_inv {α : Type} (f : α → α) (p : α → Bool)
    (hp : ∀ x, p (f x) = p x) :
    ∀ l : List α, (l.map f).find? p = (l.find? p).map f := by
  intro l
  induction l with
  | nil => rfl
  | cons a l ih =>
      cases hpa : p a with
      | true => simp [List.find?_cons, hp, hpa]
      | false => simp [List.find?_cons, hp, hpa, ih]

theorem eventUpd_id (e : LifecycleEvent) (x : WorkflowRow) : (eventUpd e x).id = x.id := by
  cases e <;> simp only [eventUpd] <;> split <;> rfl

theorem eventUpd_status_ne_pending (e : LifecycleEvent) (x : WorkflowRow)
    (h : x.status ≠ Status.pending) : (eventUpd e x).status ≠ Status.pending := by
  cases e <;> simp only [eventUpd] <;> split <;> simp_all

theorem applyEvent_eq_map (db : DB) (e : LifecycleEvent) :
    applyEvent db e = { db with workflows := db.workflows.map (eventUpd e) } := by
  cases e <;> rfl

theorem getWorkflowById_applyEvent (db : DB) (e : LifecycleEvent) (w : String) :
    getWorkflowById (applyEvent db e) w = (getWorkflowById db w).map (eventUpd e) := by
  rw [applyEvent_eq_map]
  exact find?_map_of_pred_inv (eventUpd e) (fun x => x.id == w)
    (fun x => by
      show ((eventUpd e x).id == w) = (x.id == w)
      rw [eventUpd_id]) db.workflows

/-- A flush always leaves the timer disarmed. -/
theorem flushBatchInserts_timer (s : State) (insertOk : Bool) :
    (flushBatchInserts s insertOk).batchInsertTimer = none := by
  cases s with
  | mk db pending timer tc nid =>
      cases timer <;> cases pending <;> cases insertOk <;> rfl

/-! ### C9: flushing an empty buffer writes nothing -/

/-- C9: calling `flushBatchInserts` when the pending-step buffer is empty
performs zero writes to the store: the resulting state is the old state with
only the timer disarmed — stored workflow and step data are untouched. -/
theorem c9_flush_empty_buffer_noop (s : State) (insertOk : Bool)
    (h : s.pendingSteps = []) :
    flushBatchInserts s insertOk = { s with batchInsertTimer := none } := by
  cases s with
  | mk db pending timer tc nid =>
      simp only at h
      subst h
      cases timer <;> rfl

theorem c9_flush_empty_buffer_noop_witness :
    flushBatchInserts c9State true = { c9State with batchInsertTimer := none } :=
  c9_flush_empty_buffer_noop c9State true rfl

/-! ### C8: flush scheduling is idempotent -/

/-- C8: at most one batch-insert timer is armed at a time (the timer slot is a
single `Option`); an `addStep` while a timer `t` is armed leaves exactly that
timer armed and creates no new one; an `addStep` with no timer armed creates
exactly one; and the timer callback clears the timer slot before invoking the
flush, which therefore ends with the timer disarmed. -/
theorem c8_flush_scheduling_idempotent (s : State) (w st d : String)
    (now t : Nat) (insertOk : Bool) :
    (s.batchInsertTimer = some t →
      (addStep s w st d now).batchInsertTimer = some t ∧
      (addStep s w st d now).timersCreated = s.timersCreated) ∧
    (s.batchInsertTimer = none →
      (addStep s w st d now).batchInsertTimer = some s.timersCreated ∧
      (addStep s w st d now).timersCreated = s.timersCreated + 1) ∧
    timerFire s insertOk = flushBatchInserts { s with batchInsertTimer := none } insertOk ∧
    (timerFire s insertOk).batchInsertTimer = none := by
  refine ⟨?_, ?_, rfl, flushBatchInserts_timer _ _⟩
  · intro h
    simp [addStep, scheduleBatchInsert, h]
  · intro h
    simp [addStep, scheduleBatchInsert, h]

theorem c8_flush_scheduling_idempotent_witness :
    (addStep c8State "w" "b" "d2" 2).batchInsertTimer = some 5 ∧
    (addStep c8State "w" "b" "d2" 2).timersCreated = c8State.timersCreated :=
  (c8_flush_scheduling_idempotent c8State "w" "b" "d2" 2 5 true).1 rfl

/-! ### C5: completeWorkflow overwrites unconditionally and sets ended_at -/

/-- C5: `completeWorkflow` sets the workflow's status to `completed` and its
`ended_at` to the captured timestamp with no check of the current status (the
hypothesis places no constraint on `row.status`, so the theorem covers an
already-failed workflow, which is overwritten); afterwards `ended_at` is set,
and it is at least `started_at` whenever the call happens no earlier than the
workflow started. -/
theorem c5_completeWorkflow_unconditional (db : DB) (id : String) (now : Nat)
    (row : WorkflowRow) (h : getWorkflowById db id = some row)
    (hts : row.started_at ≤ now) :
    ∃ row',
      getWorkflowById (completeWorkflow db id now) id = some row' ∧
      row'.status = Status.completed ∧
      row'.ended_at = some now ∧
      row'.started_at = row.started_at ∧
      ∀ e, row'.ended_at = some e → row'.started_at ≤ e := by
  have hfind : db.workflows.find? (fun w => w.id == id) = some row := h
  have hpe' := List.find?_some hfind
  have hpe : (row.id == id) = true := hpe'
  have hmap :
      getWorkflowById (completeWorkflow db id now) id =
        (getWorkflowById db id).map (eventUpd (LifecycleEvent.complete id now)) := by
    have := getWorkflowById_applyEvent db (LifecycleEvent.complete id now) id
    simpa [applyEvent] using this
  refine ⟨eventUpd (LifecycleEvent.complete id now) row, ?_, ?_, ?_, ?_, ?_⟩
  · rw [hmap, h]
    rfl
  · simp [eventUpd, hpe]
  · simp [eventUpd, hpe]
  · simp [eventUpd, hpe]
  · intro e he
    simp [eventUpd, hpe] at he ⊢
    omega

theorem c5_completeWorkflow_unconditional_witness :
    ∃ row',
      getWorkflowById (completeWorkflow c5DB "w" 9) "w" = some row' ∧
      row'.status = Status.completed ∧
      row'.ended_at = some 9 ∧
      row'.started_at = 3 ∧
      ∀ e, row'.ended_at = some e → row'.started_at ≤ e :=
  c5_completeWorkflow_unconditional c5DB "w" 9
    { id := "w", name := "n", identifiers := [], status := Status.failed,
      started_at := 3, ended_at := some 4 }
    (by decide) (by decide)

/-! ### C2: the once-only status transition fails on the code -/

/-- The store used for the C2 counterexample: one pending workflow. -/
def c2DB : DB :=
  { workflows := [{ id := "w", name := "n", identifiers := [], status := Status.pending,
                    started_at := 0, ended_at := none }]
    steps := [] }

/-- C2 counterexample: after `failWorkflow` has moved workflow `w` to
`failed` (with `ended_at = 1`), a further `completeWorkflow` call changes the
status again, to `completed`, and overwrites `ended_at` to 2 — the writes are
unconditional, so the transition away from `pending` is not once-only. -/
theorem c2_counterexample :
    (getWorkflowById (failWorkflow c2DB "w" 1) "w").map
        (fun r => (r.status, r.ended_at)) = some (Status.failed, some 1) ∧
    (getWorkflowById (completeWorkflow (failWorkflow c2DB "w" 1) "w" 2) "w").map
        (fun r => (r.status, r.ended_at)) = some (Status.completed, some 2) ∧
    Status.completed ≠ Status.failed ∧ some 2 ≠ (some 1 : Option Nat) := by
  refine ⟨rfl, rfl, by decide, by decide⟩

/-- C2 amended: a workflow's status leaves `pending` at the first
`completeWorkflow`/`failWorkflow` call and never returns to `pending` under
any further such calls; the calls are however unconditional, so later calls
may overwrite the status (between `completed` and `failed`) and `ended_at`. -/
theorem c2_amended_never_back_to_pending (db : DB) (w : String)
    (es : List LifecycleEvent) (row : WorkflowRow)
    (h : getWorkflowById db w = some row) (hnp : row.status ≠ Status.pending) :
    ∃ row',
      getWorkflowById (applyEvents db es) w = some row' ∧
      row'.status ≠ Status.pending := by
  induction es generalizing db row with
  | nil => exact ⟨row, h, hnp⟩
  | cons e es ih =>
      have h1 : getWorkflowById (applyEvent db e) w = some (eventUpd e row) := by
        rw [getWorkflowById_applyEvent, h]
        rfl
      exact ih (applyEvent db e) (eventUpd e row) h1
        (eventUpd_status_ne_pending e row hnp)

theorem c2_amended_never_back_to_pending_witness :
    ∃ row',
      getWorkflowById
        (applyEvents (failWorkflow c2DB "w" 1)
          [LifecycleEvent.complete "w" 2, LifecycleEvent.fail "w" 3]) "w" = some row' ∧
      row'.status ≠ Status.pending :=
  c2_amended_never_back_to_pending (failWorkflow c2DB "w" 1) "w"
    [LifecycleEvent.complete "w" 2, LifecycleEvent.fail "w" 3]
    { id := "w", name := "n", identifiers := [], status := Status.failed,
      started_at := 0, ended_at := some 1 }
    (by decide) (by decide)

/-! ### C3: getWorkflows never throws; errors land on the fallback page -/

/-- C3: whenever the store round-trip of `getWorkflows` raises — in
particular when an invalid `orderBy` value makes the query name a
non-existent column — the call returns exactly the fallback page
`{workflows := [], total := 0, page := 1, pageSize := 10, totalPages := 0}`
(and, being a total function, it never throws). -/
theorem c3_getWorkflows_error_fallback (db : DB) (o : GetWorkflowsOptions) :
    (∀ e, runGetWorkflows db o = Except.error e → getWorkflows db o = fallbackPage) ∧
    (o.orderBy = some OrderColumn.invalid → getWorkflows db o = fallbackPage) := by
  constructor
  · intro e he
    simp [getWorkflows, he, wrap]
  · intro hi
    simp [getWorkflows, runGetWorkflows, hi, wrap]

/-! ### C1: buffered steps come back from getSteps in call order -/

@[simp] theorem scheduleBatchInsert_db (s : State) :
    (scheduleBatchInsert s).db = s.db := by
  cases s with
  | mk db p t tc n => cases t <;> rfl

@[simp] theorem scheduleBatchInsert_pendingSteps (s : State) :
    (scheduleBatchInsert s).pendingSteps = s.pendingSteps := by
  cases s with
  | mk db p t tc n => cases t <;> rfl

@[simp] theorem scheduleBatchInsert_nextStepId (s : State) :
    (scheduleBatchInsert s).nextStepId = s.nextStepId := by
  cases s with
  | mk db p t tc n => cases t <;> rfl

@[simp] theorem addStep_db (s : State) (w st d : String) (now : Nat) :
    (addStep s w st d now).db = s.db := by
  simp [addStep]

@[simp] theorem addStep_pendingSteps (s : State) (w st d : String) (now : Nat) :
    (addStep s w st d now).pendingSteps = s.pendingSteps ++
      [{ id := s.nextStepId, workflow_id := w, step := st, data := d, created_at := now }] := by
  simp [addStep]

@[simp] theorem addStep_nextStepId (s : State) (w st d : String) (now : Nat) :
    (addStep s w st d now).nextStepId = s.nextStepId + 1 := by
  simp [addStep]

/-- Folding a sequence of `addStep` calls leaves the store untouched and
appends exactly the call rows, in call order, to the pending buffer. -/
theorem runAddSteps_fields (w : String) :
    ∀ (calls : List AddStepCall) (s : State),
      (runAddSteps s w calls).db = s.db ∧
      (runAddSteps s w calls).pendingSteps =
        s.pendingSteps ++ callRows s.nextStepId w calls := by
  intro calls
  induction calls with
  | nil => intro s; exact ⟨rfl, by simp [runAddSteps, callRows]⟩
  | cons c rest ih =>
      intro s
      have hstep : runAddSteps s w (c :: rest) =
          runAddSteps (addStep s w c.step c.data c.now) w rest := rfl
      rcases ih (addStep s w c.step c.data c.now) with ⟨h1, h2⟩
      rw [hstep]
      refine ⟨by rw [h1]; simp, ?_⟩
      rw [h2]
      simp [callRows]

/-- A successful flush appends the buffered rows, in buffer order, to the
step table, and does not touch the workflow table. -/
theorem flushBatchInserts_db (s : State) :
    (flushBatchInserts s true).db.steps = s.db.steps ++ s.pendingSteps ∧
    (flushBatchInserts s true).db.workflows = s.db.workflows := by
  cases s with
  | mk db p t tc n =>
      cases t <;> cases p <;> simp [flushBatchInserts]

theorem callRows_workflow_id (w : String) :
    ∀ (calls : List AddStepCall) (k : Nat),
      ∀ r ∈ callRows k w calls, r.workflow_id = w := by
  intro calls
  induction calls with
  | nil => intro k r hr; cases hr
  | cons c rest ih =>
      intro k r hr
      rcases List.mem_cons.mp hr with h | h
      · subst h; rfl
      · exact ih (k + 1) r h

theorem callRows_created_at (w : String) :
    ∀ (calls : List AddStepCall) (k : Nat),
      ∀ r ∈ callRows k w calls, ∃ c ∈ calls, r.created_at = c.now := by
  intro calls
  induction calls with
  | nil => intro k r hr; cases hr
  | cons c rest ih =>
      intro k r hr
      rcases List.mem_cons.mp hr with h | h
      · exact ⟨c, List.mem_cons_self c rest, by subst h; rfl⟩
      · rcases ih (k + 1) r h with ⟨c', hc', he⟩
        exact ⟨c', List.mem_cons_of_mem c hc', he⟩

/-- Chronological calls produce a buffer already sorted by `created_at`. -/
theorem callRows_sorted (w : String) :
    ∀ (calls : List AddStepCall) (k : Nat),
      List.Pairwise (fun a b => a.now ≤ b.now) calls →
      List.Sorted stepLE (callRows k w calls) := by
  intro calls
  induction calls with
  | nil => intro k _; exact List.sorted_nil
  | cons c rest ih =>
      intro k hpw
      rcases List.pairwise_cons.mp hpw with ⟨hc, hrest⟩
      refine List.pairwise_cons.mpr ⟨?_, ih (k + 1) hrest⟩
      intro r hr
      rcases callRows_created_at w rest (k + 1) r hr with ⟨c', hc', he⟩
      show ({ id := k, workflow_id := w, step := c.step, data := c.data,
              created_at := c.now } : StepRow).created_at ≤ r.created_at
      rw [he]
      exact hc c' hc'

theorem callRows_filter (w : String) :
    ∀ (calls : List AddStepCall) (k : Nat),
      (callRows k w calls).filter (fun r => r.workflow_id == w) =
        callRows k w calls := by
  intro calls k
  rw [List.filter_eq_self]
  intro r hr
  have := callRows_workflow_id w calls k r hr
  simp [this]

/-- C1: for every sequence of `addStep` calls on a workflow made in
chronological order (the wall-clock timestamps they capture are
non-decreasing), starting from a state whose buffer is empty and whose step
table holds no row of that workflow, a subsequent `flushBatchInserts` makes
`getSteps` return exactly the added steps in call order — in particular,
steps sharing a `created_at` value come back in insertion order, because the
flushed insert preserves buffer order and the `ORDER BY` is a stable sort. -/
theorem c1_addStep_flush_getSteps_call_order (s : State) (w : String)
    (calls : List AddStepCall)
    (hpending : s.pendingSteps = [])
    (hfresh : ∀ r ∈ s.db.steps, r.workflow_id ≠ w)
    (hmono : List.Pairwise (fun a b => a.now ≤ b.now) calls) :
    getSteps (flushBatchInserts (runAddSteps s w calls) true).db w =
      callRows s.nextStepId w calls := by
  rcases runAddSteps_fields w calls s with ⟨hdb, hpend⟩
  rcases flushBatchInserts_db (runAddSteps s w calls) with ⟨hsteps, _⟩
  unfold getSteps
  rw [hsteps, hdb, hpend, hpending, List.nil_append, List.filter_append]
  have h1 : s.db.steps.filter (fun r => r.workflow_id == w) = [] := by
    rw [List.filter_eq_nil_iff]
    intro r hr
    simp [hfresh r hr]
  rw [h1, List.nil_append, callRows_filter]
  exact (callRows_sorted w calls s.nextStepId hmono).insertionSort_eq

theorem c1_addStep_flush_getSteps_call_order_witness :
    getSteps (flushBatchInserts (runAddSteps c1State "w" c1Calls) true).db "w" =
      callRows 0 "w" c1Calls :=
  c1_addStep_flush_getSteps_call_order c1State "w" c1Calls rfl
    (by decide) (by decide)

/-! ### C10: one addSteps batch shares a single created_at -/

theorem addStepsRows_created_at (w : String) (now : Nat) :
    ∀ (steps : List (String × String)) (k : Nat),
      ∀ r ∈ addStepsRows k w now steps, r.created_at = now := by
  intro steps
  induction steps with
  | nil => intro k r hr; cases hr
  | cons p rest ih =>
      cases p with
      | mk st d =>
          intro k r hr
          rcases List.mem_cons.mp hr with h | h
          · subst h; rfl
          · exact ih (k + 1) r h

/-- C10: every step record created by a single `addSteps` call carries the one
timestamp captured at the start of the call; consequently `created_at` cannot
distinguish the batch's internal order — every permutation of the batch
satisfies the non-decreasing-`created_at` property that `getSteps`' sort
establishes, so that sort does not pin the batch order down. -/
theorem c10_addSteps_one_timestamp (s : State) (w : String)
    (steps : List (String × String)) (now : Nat) (insertOk : Bool) :
    (addSteps s w steps now insertOk).db.steps =
      s.db.steps ++
        (if insertOk then addStepsRows s.nextStepId w now steps else []) ∧
    (∀ r ∈ addStepsRows s.nextStepId w now steps, r.created_at = now) ∧
    (∀ l, l.Perm (addStepsRows s.nextStepId w now steps) →
      List.Sorted stepLE l) := by
  refine ⟨?_, addStepsRows_created_at w now steps s.nextStepId, ?_⟩
  · cases insertOk <;> simp [addSteps]
  · intro l hperm
    refine List.pairwise_of_forall_mem_list ?_
    intro a ha b hb
    have ha' := addStepsRows_created_at w now steps s.nextStepId a (hperm.mem_iff.mp ha)
    have hb' := addStepsRows_created_at w now steps s.nextStepId b (hperm.mem_iff.mp hb)
    show a.created_at ≤ b.created_at
    rw [ha', hb']

/-- Concrete instantiation of `c10_addSteps_one_timestamp`: the two rows of a
two-step batch, taken in swapped order, still satisfy the sort property. -/
theorem c10_addSteps_one_timestamp_witness :
    List.Sorted stepLE
      [{ id := 1, workflow_id := "w", step := "b", data := "e", created_at := 7 },
       { id := 0, workflow_id := "w", step := "a", data := "d", created_at := 7 }] :=
  (c10_addSteps_one_timestamp c1State "w" [("a", "d"), ("b", "e")] 7 true).2.2
    [{ id := 1, workflow_id := "w", step := "b", data := "e", created_at := 7 },
     { id := 0, workflow_id := "w", step := "a", data := "d", created_at := 7 }]
    (by decide)

theorem c3_getWorkflows_error_fallback_witness :
    getWorkflows c3DB
      { status := none, page := none, pageSize := none,
        orderBy := some OrderColumn.invalid, order := none, identifier := none } =
      fallbackPage :=
  (c3_getWorkflows_error_fallback c3DB
      { status := none, page := none, pageSize := none,
        orderBy := some OrderColumn.invalid, order := none, identifier := none }).2 rfl

/-! ### C4: getMostFrequentSteps -/

/-- C4 counterexample: the claim says every negative or zero limit yields an
empty result, but on the default SQLite backend a negative LIMIT — which knex
forwards untouched — places no bound on the rows returned, so on a store
holding one step `getMostFrequentSteps (-1)` returns the non-empty frequency
list rather than `[]`. -/
theorem c4_counterexample :
    getMostFrequentSteps c4DB (-1) = [("a", 1)] ∧
    getMostFrequentSteps c4DB (-1) ≠ ([] : List (String × Nat)) := by
  refine ⟨rfl, by decide⟩

/-- C4 amended: `getMostFrequentSteps limit` returns step names with their
occurrence counts over all stored steps, ordered descending by count; a zero
limit returns an empty result, while a negative limit imposes no bound and
returns the whole descending frequency list. -/
theorem c4_getMostFrequentSteps_freq_desc (db : DB) (limit : Int) :
    List.Sorted countDescRel (getMostFrequentSteps db limit) ∧
    (∀ p ∈ getMostFrequentSteps db limit, p.2 = stepOccurrences db p.1) ∧
    (limit = 0 → getMostFrequentSteps db limit = []) ∧
    (limit < 0 → getMostFrequentSteps db limit =
      List.insertionSort countDescRel (stepCounts db)) := by
  have hsorted : List.Sorted countDescRel (List.insertionSort countDescRel (stepCounts db)) :=
    List.sorted_insertionSort countDescRel (stepCounts db)
  have hmem : ∀ p ∈ getMostFrequentSteps db limit, p ∈ stepCounts db := by
    intro p hp
    unfold getMostFrequentSteps sqlLimit at hp
    have hp' : p ∈ List.insertionSort countDescRel (stepCounts db) := by
      by_cases hneg : limit < 0
      · rw [if_pos hneg] at hp
        exact hp
      · rw [if_neg hneg] at hp
        exact (List.take_sublist _ _).mem hp
    exact (List.mem_insertionSort countDescRel).mp hp'
  refine ⟨?_, ?_, ?_, ?_⟩
  · unfold getMostFrequentSteps sqlLimit
    by_cases hneg : limit < 0
    · rw [if_pos hneg]
      exact hsorted
    · rw [if_neg hneg]
      exact List.Pairwise.sublist (List.take_sublist _ _) hsorted
  · intro p hp
    rcases List.mem_map.mp (hmem p hp) with ⟨st, _, hst⟩
    subst hst
    rfl
  · intro h
    subst h
    simp [getMostFrequentSteps, sqlLimit]
  · intro h
    simp [getMostFrequentSteps, sqlLimit, h]

/-- Concrete instantiation of `c4_getMostFrequentSteps_freq_desc`: zero limit
yields the empty list; negative limit yields the whole frequency list. -/
theorem c4_getMostFrequentSteps_freq_desc_witness :
    getMostFrequentSteps c4DB 0 = [] ∧
    getMostFrequentSteps c4DB (-1) =
      List.insertionSort countDescRel (stepCounts c4DB) :=
  ⟨(c4_getMostFrequentSteps_freq_desc c4DB 0).2.2.1 rfl,
   (c4_getMostFrequentSteps_freq_desc c4DB (-1)).2.2.2 (by decide)⟩

/-! ### C6: getWorkflowStats -/

/-- C6: on a store with exactly two workflows — one completed with two steps,
one pending with one step — `getWorkflowStats` reports total 2, completed 1,
pending 1 and an average of 1.5 steps per workflow; and in general the
reported average is the raw average rounded to two decimal places. -/
theorem c6_getWorkflowStats_example :
    getWorkflowStats c6DB =
      { total := 2, completed := 1, pending := 1, avgSteps := 3 / 2 } ∧
    ∀ db, (getWorkflowStats db).avgSteps = round2 (avgStepsRaw db) := by
  refine ⟨?_, fun db => rfl⟩
  have hgroups : stepCountsByWorkflow c6DB = [("w1", 2), ("w2", 1)] := rfl
  have havg : avgStepsRaw c6DB = 3 / 2 := by
    simp only [avgStepsRaw, hgroups, List.map_cons, List.map_nil, List.sum_cons,
      List.sum_nil, List.length_cons, List.length_nil]
    norm_num
  have hround : round2 (3 / 2 : Rat) = 3 / 2 := by
    rw [round2]
    norm_num
  simp only [getWorkflowStats, WorkflowStats.mk.injEq]
  exact ⟨rfl, rfl, rfl, by rw [havg, hround]⟩

/-! ### C7: attachIdentifier -/

theorem attachUpd_of_ne (wf : WorkflowRow) (n : Identifier) (x : WorkflowRow)
    (h : x.id ≠ wf.id) : attachUpd wf n x = x := by
  simp [attachUpd, h]

/-- After its own update, the found workflow matches the new pair. -/
theorem matchesIdentifier_attachUpd_self (wf : WorkflowRow) (n : Identifier) :
    matchesIdentifier (attachUpd wf n wf) n.key n.value = true := by
  simp [attachUpd, matchesIdentifier]

/-- The update only appends, so any pair the found workflow already matched is
still matched afterwards. -/
theorem matchesIdentifier_attachUpd_mono (wf : WorkflowRow) (n : Identifier)
    (k v : String) (h : matchesIdentifier wf k v = true) :
    matchesIdentifier (attachUpd wf n wf) k v = true := by
  simp [matchesIdentifier] at h
  simp [attachUpd, matchesIdentifier, List.any_append]
  rcases h with ⟨i, hi, hk, hv⟩
  exact Or.inl ⟨i, hi, hk, hv⟩

/-- On a table with unique primary keys, `find?` at a predicate commutes with
the `attachIdentifier` UPDATE: the first match after the update is the updated
first match from before, provided the updated row still satisfies the
predicate. -/
theorem find?_map_attachUpd (p : WorkflowRow → Bool) (wf : WorkflowRow)
    (n : Identifier) (hwf : p (attachUpd wf n wf) = true) :
    ∀ l : List WorkflowRow, List.Pairwise (fun a b => a.id ≠ b.id) l →
      l.find? p = some wf →
      (l.map (attachUpd wf n)).find? p = some (attachUpd wf n wf) := by
  intro l
  induction l with
  | nil => intro _ h; cases h
  | cons a l ih =>
      intro hpw hf
      rcases List.pairwise_cons.mp hpw with ⟨ha, hl⟩
      cases hpa : p a with
      | true =>
          rw [List.find?_cons_of_pos _ hpa] at hf
          injection hf with hf
          subst hf
          rw [List.map_cons, List.find?_cons_of_pos _ hwf]
      | false =>
          rw [List.find?_cons_of_neg _ (by simp [hpa])] at hf
          have hwfmem := List.mem_of_find?_eq_some hf
          have hane : a.id ≠ wf.id := ha wf hwfmem
          have hna : ¬ p (attachUpd wf n a) := by
            rw [attachUpd_of_ne wf n a hane]
            simp [hpa]
          rw [List.map_cons, List.find?_cons_of_neg _ hna, ih hl hf]

/-- C7: `attachIdentifier` returns false when no workflow matches the existing
pair, when the new identifier is malformed (empty key or value, the JS-falsy
residue), or when the new pair already exists on the found workflow; on a
table with unique primary keys, attaching a fresh well-formed pair returns
true, makes some workflow carrying that pair resolvable through
`getWorkflowByIdentifier`, and a second attach of the same pair returns
false. -/
theorem c7_attachIdentifier_spec (db : DB) (ek ev : String) (n : Identifier) :
    (getWorkflowByIdentifier db ek ev = none →
      attachIdentifier db ek ev n = (false, db)) ∧
    (n.key = "" ∨ n.value = "" → (attachIdentifier db ek ev n).1 = false) ∧
    (∀ wf, getWorkflowByIdentifier db ek ev = some wf →
      matchesIdentifier wf n.key n.value = true →
      (attachIdentifier db ek ev n).1 = false) ∧
    (∀ wf, getWorkflowByIdentifier db ek ev = some wf →
      n.key ≠ "" → n.value ≠ "" →
      matchesIdentifier wf n.key n.value = false →
      List.Pairwise (fun a b => a.id ≠ b.id) db.workflows →
      (attachIdentifier db ek ev n).1 = true ∧
      (∃ w', getWorkflowByIdentifier (attachIdentifier db ek ev n).2
          n.key n.value = some w' ∧
        matchesIdentifier w' n.key n.value = true) ∧
      (attachIdentifier (attachIdentifier db ek ev n).2 ek ev n).1 = false) := by
  refine ⟨?_, ?_, ?_, ?_⟩
  · intro h
    simp [attachIdentifier, h]
  · intro h
    cases hw : getWorkflowByIdentifier db ek ev with
    | none => simp [attachIdentifier, hw]
    | some wf =>
        rcases h with h | h <;> simp [attachIdentifier, hw, h]
  · intro wf hw hm
    simp [attachIdentifier, hw, hm]
  · intro wf hw hk hv hdup hpk
    have hmf : (n.key == "" || n.value == "") = false := by
      simp [hk, hv]
    have hres : attachIdentifier db ek ev n =
        (true, { db with workflows := db.workflows.map (attachUpd wf n) }) := by
      simp [attachIdentifier, hw, hmf, hdup]
    have hw' : db.workflows.find? (fun w => matchesIdentifier w ek ev) = some wf := hw
    have hwfmem : wf ∈ db.workflows := List.mem_of_find?_eq_some hw'
    refine ⟨by rw [hres], ?_, ?_⟩
    · have hmem : attachUpd wf n wf ∈ db.workflows.map (attachUpd wf n) :=
        List.mem_map_of_mem (attachUpd wf n) hwfmem
      have hq := matchesIdentifier_attachUpd_self wf n
      have hsome :
          ((db.workflows.map (attachUpd wf n)).find?
            (fun w => matchesIdentifier w n.key n.value)).isSome := by
        rw [List.find?_isSome]
        exact ⟨attachUpd wf n wf, hmem, hq⟩
      rcases Option.isSome_iff_exists.mp hsome with ⟨w', hw''⟩
      have hq' := List.find?_some hw''
      refine ⟨w', ?_, hq'⟩
      rw [hres]
      exact hw''
    · have hwfp0 := List.find?_some hw'
      have hwfp : matchesIdentifier wf ek ev = true := hwfp0
      have hupd : matchesIdentifier (attachUpd wf n wf) ek ev = true :=
        matchesIdentifier_attachUpd_mono wf n ek ev hwfp
      have hfind2 :
          getWorkflowByIdentifier
            { db with workflows := db.workflows.map (attachUpd wf n) } ek ev =
            some (attachUpd wf n wf) :=
        find?_map_attachUpd (fun w => matchesIdentifier w ek ev) wf n hupd
          db.workflows hpk hw'
      rw [hres]
      simp [attachIdentifier, hfind2, hmf, matchesIdentifier_attachUpd_self]

/-- Concrete instantiation of `c7_attachIdentifier_spec`: attaching (b, 2) via
the existing pair (a, 1) succeeds, makes (b, 2) resolvable, and a second
attach of (b, 2) returns false. -/
theorem c7_attachIdentifier_spec_witness :
    (attachIdentifier c7DB "a" "1" { key := "b", value := "2" }).1 = true ∧
    (∃ w', getWorkflowByIdentifier
        (attachIdentifier c7DB "a" "1" { key := "b", value := "2" }).2
        "b" "2" = some w' ∧
      matchesIdentifier w' "b" "2" = true) ∧
    (attachIdentifier (attachIdentifier c7DB "a" "1" { key := "b", value := "2" }).2
        "a" "1" { key := "b", value := "2" }).1 = false :=
  (c7_attachIdentifier_spec c7DB "a" "1" { key := "b", value := "2" }).2.2.2 c7Row
    rfl (by decide) (by decide) (by decide) (by decide)

end Liteflow
